import Mathlib

/-!
Verification of the planar pixel codec, the format registry and the limits
validator of the gamegraphics library.

The JavaScript sources are embedded shallowly:

* `Uint8Array` values are lists of naturals; every store keeps only the low
  eight bits (`% 256`), a write at an index outside the array is ignored and
  a read outside the array yields 0 (JS gives `undefined`, which the bit
  operations coerce to 0).
* `new Uint8Array(len)` truncates a fractional `len` (ES2017 `ToIndex`),
  throws a `RangeError` for a negative or infinite `len`, and fills with 0.
* JS `<<` and `>>` reduce the shift count modulo 32; `%` on numbers keeps
  the sign of the dividend (`Int.tmod`); `Math.ceil(x / 8)` on an integral
  `x` is floor division of `x + 7` by 8, which for the positive divisor 8
  is the `Int` division `(x + 7) / 8`.
* a thrown exception is an `Except.error`.
-/

/-- Errors a codec call can raise: `rangeError` models the `RangeError`
thrown by the `Uint8Array` constructor, `thrown` models `throw new Error(message)`. -/
inductive JsError where
  | rangeError : JsError
  | thrown : String → JsError
deriving DecidableEq, Repr

/-- One byte of a `Uint8Array` after `out[idx] |= v`: only the low eight bits
are kept; an out-of-range index leaves the array unchanged (`List.set` ignores
out-of-range indices, matching JS typed arrays). -/
def orByte (out : List Nat) (idx v : Nat) : List Nat :=
  out.set idx ((out.getD idx 0 ||| v) % 256)

/-- `out[idx] |= v` for a possibly negative (or, as `none`, NaN) index:
JS typed arrays ignore such writes. -/
def jsWriteOr (out : List Nat) (idx : Option Int) (v : Nat) : List Nat :=
  match idx with
  | none => out
  | some j => if 0 ≤ j then orByte out j.toNat v else out

/-- Message of the error thrown by `fromPlanar` when the plane width is too small. -/
def planeWidthErrorMessage (planeWidth : Int) : String :=
  s!"fromBytePlanar() planeWidth={planeWidth} too small!"

/-- Inner loop of `fromPlanar`: for the stride starting at byte `i` of
`content`, which belongs to plane `plane`, OR one bit into each of the
`planeWidth` output pixels of the current window.

```js
for (let b = 0; b < planeWidth; b++) {
  const srcByteOffset = (b / 8) >>> 0;
  const srcBit = byteOrderMSB ? (7 - (b % 8)) : b % 8;
  const data = content[i + srcByteOffset];
  const value = ((data >> srcBit) & 1) << plane;
  out[outpos + b] |= value;
}
```
-/
def fromPlanarInner (content : List Nat) (i plane pw : Nat) (msb : Bool)
    (outpos : Nat) (out : List Nat) : List Nat :=
  (List.range pw).foldl (fun o b =>
    let srcByteOffset := b / 8
    let srcBit := if msb then 7 - b % 8 else b % 8
    let data := content.getD (i + srcByteOffset) 0
    let value := ((data >>> srcBit) &&& 1) <<< (plane % 32)
    orByte o (outpos + b) value) out

/-- Outer loop of `fromPlanar`.  The JS loop `for (let i = 0; i <
content.length; i += widthBytes)` runs `⌈content.length / widthBytes⌉` times
with `i = s * widthBytes` on iteration `s`; the first argument counts the
remaining iterations.

```js
for (let i = 0; i < content.length; i += widthBytes) {
  const plane = (i / widthBytes) % planes;
  ...inner loop...
  if (plane === planes - 1) outpos += planeWidth;
}
```
-/
def fromPlanarLoop (content : List Nat) (planes wb pw : Nat) (msb : Bool) :
    Nat → Nat → List Nat → Nat → List Nat
  | 0, _, out, _ => out
  | n + 1, s, out, outpos =>
    let i := s * wb
    let plane := i / wb % planes
    let out' := fromPlanarInner content i plane pw msb outpos out
    let outpos' := if plane = planes - 1 then outpos + pw else outpos
    fromPlanarLoop content planes wb pw msb n (s + 1) out' outpos'

/-- `fromPlanar` of `src/util/image-planar.js`: convert packed planar pixel
data to linear 8bpp data.

```js
let out = new Uint8Array(content.length * 8 / planes);
let outpos = 0;
const widthBytes = Math.ceil(planeWidth / 8);
if (widthBytes <= 0) {
  throw new Error(`fromBytePlanar() planeWidth=${planeWidth} too small!`);
}
...loops...
return out;
```

With `planes = 0` and nonempty content the allocated length is `Infinity`
and the constructor throws a `RangeError` (with empty content it is `NaN`,
which `ToIndex` turns into 0); otherwise the fractional length truncates,
which is Nat division. -/
def fromPlanar (content : List Nat) (planes : Nat) (planeWidth : Int)
    (byteOrderMSB : Bool) : Except JsError (List Nat) :=
  if planes = 0 ∧ content.length ≠ 0 then
    .error .rangeError
  else
    let out := List.replicate (content.length * 8 / planes) 0
    let widthBytes : Int := (planeWidth + 7) / 8
    if widthBytes ≤ 0 then
      .error (.thrown (planeWidthErrorMessage planeWidth))
    else
      .ok (fromPlanarLoop content planes widthBytes.toNat planeWidth.toNat byteOrderMSB
        ((content.length + widthBytes.toNat - 1) / widthBytes.toNat) 0 out 0)

/-- Loop of `toPlanar`, one iteration per linear pixel `i`; the first
argument counts the remaining iterations.

```js
for (let i = 0; i < content.length; i++) {
  const pixelByte = ((i / 8) >> 0) % widthBytes;
  const pixelBit = byteOrderMSB ? 7 - (i % 8) : (i % 8);
  const data = content[i];
  for (let b = 0; b < planes; b++) {
    const val = ((data >> b) & 1) << pixelBit;
    out[outpos + pixelByte + b * widthBytes] |= val;
  }
  if ((i % planeWidth) === planeWidth - 1) outpos += planes * widthBytes;
}
```

With `widthBytes = 0` the JS `pixelByte` is `NaN` (modelled as `none`) and
every write is ignored; `i % planeWidth` for `planeWidth = 0` is `NaN` and
never equals `planeWidth - 1`. -/
def toPlanarLoop (content : List Nat) (planes : Nat) (planeWidth widthBytes : Int)
    (msb : Bool) : Nat → Nat → List Nat → Int → List Nat
  | 0, _, out, _ => out
  | n + 1, i, out, outpos =>
    let pixelByte? : Option Int :=
      if widthBytes = 0 then none else some (Int.tmod ((i / 8 : Nat) : Int) widthBytes)
    let pixelBit := if msb then 7 - i % 8 else i % 8
    let data := content.getD i 0
    let out' := (List.range planes).foldl (fun o b =>
        let val := ((data >>> (b % 32)) &&& 1) <<< pixelBit
        jsWriteOr o (pixelByte?.map (fun pb => outpos + pb + (b : Int) * widthBytes)) val) out
    let outpos' :=
      if planeWidth ≠ 0 ∧ Int.tmod (i : Int) planeWidth = planeWidth - 1 then
        outpos + (planes : Int) * widthBytes
      else outpos
    toPlanarLoop content planes planeWidth widthBytes msb n (i + 1) out' outpos'

/-- `toPlanar` of `src/util/image-planar.js`: convert linear 8bpp pixel data
to packed planar data.  The allocated length `content.length * planes / 8`
truncates; it is always finite and nonnegative, so `toPlanar` never throws.

```js
let out = new Uint8Array(content.length * planes / 8);
let outpos = 0;
const widthBytes = Math.ceil(planeWidth / 8);
...loop...
return out;
```
-/
def toPlanar (content : List Nat) (planes : Nat) (planeWidth : Int)
    (byteOrderMSB : Bool) : List Nat :=
  let out := List.replicate (content.length * planes / 8) 0
  let widthBytes : Int := (planeWidth + 7) / 8
  toPlanarLoop content planes planeWidth widthBytes byteOrderMSB content.length 0 out 0

/-- The tri-state confidence a handler returns from `identify`: in the JS
source `true` is a definite match, `false` a definite non-match and
`undefined` a possible match. -/
inductive Confidence where
  | definiteMatch : Confidence
  | definiteNoMatch : Confidence
  | possibleMatch : Confidence
deriving DecidableEq, Repr

/-- A format handler as the registry sees it: only `identify` matters for
`findHandler`. -/
structure Handler where
  identify : List Nat → Confidence

/-- The `Array.prototype.some` loop inside `findHandler`, with the mutable
`handlers` accumulator as first state:

```js
let handlers = [];
fileTypes.some(x => {
  const metadata = x.metadata();
  const confidence = x.identify(content);
  if (confidence === true) {
    handlers = [x];
    return true; // exit loop early
  }
  if (confidence === undefined) {
    handlers.push(x);
    // keep going to look for a better match
  }
});
return handlers;
```
-/
def findHandlerLoop (content : List Nat) : List Handler → List Handler → List Handler
  | handlers, [] => handlers
  | handlers, x :: rest =>
    match x.identify content with
    | .definiteMatch => [x]
    | .possibleMatch => findHandlerLoop content (handlers ++ [x]) rest
    | .definiteNoMatch => findHandlerLoop content handlers rest

/-- `GameGraphics.findHandler`, generalised over the registry list
(`fileTypes` in the source is a fixed module-level list). -/
def findHandler (fileTypes : List Handler) (content : List Nat) : List Handler :=
  findHandlerLoop content [] fileTypes

/-- `ArchiveLimits` of the handler metadata: `none` models the JS
`undefined` (no restriction). -/
structure ArchiveLimits where
  maxFilenameLen : Option Nat
  maxFileCount : Option Nat

/-- One file entry of an archive/collection; `content` is the value
`file.getContent()` produces. -/
structure ArchiveFile where
  name : String
  nativeSize : Nat
  content : List Nat

/-- The collection handed to `checkLimits` (`archive.files`). -/
structure Archive where
  files : List ArchiveFile

/-- JS truthiness of a number-or-undefined value: `undefined` and `0` are
falsy, any other count is truthy. -/
def jsTruthy : Option Nat → Bool
  | none => false
  | some n => n != 0

/-- The issue string pushed when the collection holds too many files. -/
def fileCountIssue (numFiles maxCount : Nat) : String :=
  s!"There are {numFiles} files to save, but this archive format can only store up to {maxCount} files."

/-- The issue string pushed when one filename is too long. -/
def filenameIssue (nameLen maxLen : Nat) (name : String) : String :=
  s!"Filename length is {nameLen}, max is {maxLen}: {name}"

/-- Issues pushed by the first block of `checkLimits`:

```js
if (limits.maxFileCount && (archive.files.length > limits.maxFileCount)) {
  issues.push(`There are ${archive.files.length} files to save, but this `
    + `archive format can only store up to ${limits.maxFileCount} files.`);
}
```
-/
def fileCountIssues (limits : ArchiveLimits) (archive : Archive) : List String :=
  if jsTruthy limits.maxFileCount ∧ archive.files.length > limits.maxFileCount.getD 0 then
    [fileCountIssue archive.files.length (limits.maxFileCount.getD 0)]
  else []

/-- Issues pushed by the second block of `checkLimits`:

```js
if (limits.maxFilenameLen) {
  archive.files.forEach(file => {
    if (file.name.length > limits.maxFilenameLen) {
      issues.push(`Filename length is ${file.name.length}, max is `
        + `${limits.maxFilenameLen}: ${file.name}`);
    }
  });
}
```
-/
def filenameIssues (limits : ArchiveLimits) (archive : Archive) : List String :=
  if jsTruthy limits.maxFilenameLen then
    archive.files.filterMap (fun file =>
      if file.name.length > limits.maxFilenameLen.getD 0 then
        some (filenameIssue file.name.length (limits.maxFilenameLen.getD 0) file.name)
      else none)
  else []

/-- `ImageHandler.checkLimits`: the issue list is everything pushed by the
two limit blocks, in push order.  The third `forEach` block only logs a
performance warning through `Debug.warn` and never touches `issues`. -/
def checkLimits (limits : ArchiveLimits) (archive : Archive) : List String :=
  fileCountIssues limits archive ++ filenameIssues limits archive

/-- A statement-by-statement rendering of `checkLimits` in an exception
monad, with the mutable `issues` array threaded as an accumulator and the
archive value returned so that a caller can compare it with the input: the
source only ever reads `archive`, pushes to its local `issues`, and contains
no `throw`.  The last block reads `file.nativeSize` and `file.getContent()`
to decide whether to log a warning (`Debug.warn`), discarding the result. -/
def checkLimitsRun (limits : ArchiveLimits) (archive : Archive) :
    Except String (List String × Archive) := do
  let issues0 : List String := []
  let issues1 :=
    if jsTruthy limits.maxFileCount ∧ archive.files.length > limits.maxFileCount.getD 0 then
      issues0 ++ [fileCountIssue archive.files.length (limits.maxFileCount.getD 0)]
    else issues0
  let issues2 :=
    if jsTruthy limits.maxFilenameLen then
      archive.files.foldl (fun acc file =>
        if file.name.length > limits.maxFilenameLen.getD 0 then
          acc ++ [filenameIssue file.name.length (limits.maxFilenameLen.getD 0) file.name]
        else acc) issues1
    else issues1
  let _warned := archive.files.filterMap (fun file =>
    if file.nativeSize = 0 ∧ file.content.length ≠ 0 then some file.name else none)
  pure (issues2, archive)

/-- A handler whose `identify` always reports a possible match. -/
def handlerPossible : Handler := ⟨fun _ => .possibleMatch⟩

/-- A handler whose `identify` always reports a definite match. -/
def handlerDefinite : Handler := ⟨fun _ => .definiteMatch⟩

/-- A handler whose `identify` always reports a definite non-match. -/
def handlerNoMatch : Handler := ⟨fun _ => .definiteNoMatch⟩

/-- A second always-possible handler, distinguishable from `handlerPossible`
by the confidence it reports on nonempty content. -/
def handlerPossibleB : Handler := ⟨fun c => if c.length = 0 then .possibleMatch else .definiteNoMatch⟩

/-- Apply a list of `(index, value)` OR-stores (`out[idx] |= v`) to a byte
buffer, in order.  Both codec loops are reassociated into this form for the
round-trip proof. -/
def applyWrites (out : List Nat) (ws : List (Nat × Nat)) : List Nat :=
  ws.foldl (fun o iv => orByte o iv.1 iv.2) out

/-- OR of every value a write list stores at index `j`. -/
def orWrites (ws : List (Nat × Nat)) (j : Nat) : Nat :=
  ws.foldr (fun iv acc => if iv.1 = j then iv.2 ||| acc else acc) 0

/-- OR of all elements of a list. -/
def orJoin (l : List Nat) : Nat :=
  l.foldr (fun x acc => x ||| acc) 0

/-- The OR-stores one `fromPlanar` stride performs, as a write list. -/
def fromPlanarInnerWrites (content : List Nat) (i plane pw : Nat) (msb : Bool)
    (outpos : Nat) : List (Nat × Nat) :=
  (List.range pw).map (fun b =>
    (outpos + b,
      ((content.getD (i + b / 8) 0 >>> (if msb then 7 - b % 8 else b % 8)) &&& 1)
        <<< (plane % 32)))

/-- The OR-stores of the whole `fromPlanar` outer loop, threading the same
`s` and `outpos` state as `fromPlanarLoop`. -/
def fromPlanarWrites (content : List Nat) (planes wb pw : Nat) (msb : Bool) :
    Nat → Nat → Nat → List (Nat × Nat)
  | 0, _, _ => []
  | n + 1, s, outpos =>
    fromPlanarInnerWrites content (s * wb) (s * wb / wb % planes) pw msb outpos
      ++ fromPlanarWrites content planes wb pw msb n (s + 1)
          (if s * wb / wb % planes = planes - 1 then outpos + pw else outpos)

/-- The OR-stores of the `toPlanar` loop for a positive integral plane width
(`planeWidth = pw ≥ 1`, `widthBytes = wb ≥ 1`), with all indices in `Nat`,
threading the same `i` and `outpos` state as `toPlanarLoop`. -/
def toPlanarWrites (content : List Nat) (planes wb pw : Nat) (msb : Bool) :
    Nat → Nat → Nat → List (Nat × Nat)
  | 0, _, _ => []
  | n + 1, i, outpos =>
    (List.range planes).map (fun b =>
      (outpos + i / 8 % wb + b * wb,
        ((content.getD i 0 >>> (b % 32)) &&& 1) <<< (if msb then 7 - i % 8 else i % 8)))
      ++ toPlanarWrites content planes wb pw msb n (i + 1)
          (if i % pw = pw - 1 then outpos + planes * wb else outpos)

/-- The OR-stores of the single `toPlanar` pixel `u`, with the loop state
`outpos` already expressed through its closed form `planes * wb * (u / pw)`. -/
def toPlanarPixelWrites (content : List Nat) (planes wb pw : Nat) (msb : Bool)
    (u : Nat) : List (Nat × Nat) :=
  (List.range planes).map (fun b =>
    (planes * wb * (u / pw) + u / 8 % wb + b * wb,
      ((content.getD u 0 >>> (b % 32)) &&& 1) <<< (if msb then 7 - u % 8 else u % 8)))

example : fromPlanar [0xAA, 0x55] 2 8 true = .ok [1, 2, 1, 2, 1, 2, 1, 2] := rfl
example : toPlanar [1, 2, 1, 2, 1, 2, 1, 2] 2 8 true = [0xAA, 0x55] := by decide
example : fromPlanar [0xFF] 1 4 true = .ok [1, 1, 1, 1, 0, 0, 0, 0] := rfl
example : toPlanar [1, 1, 1, 1, 0, 0, 0, 0] 1 4 true = [0xF0] := by decide
example : fromPlanar [1, 2, 3] 4 0 true
    = .error (.thrown (planeWidthErrorMessage 0)) := rfl
example : toPlanar [1, 2, 3, 4, 5, 6, 7, 8] 8 0 true = [0, 0, 0, 0, 0, 0, 0, 0] := by decide
example : toPlanar [0xFF] 8 (-8) true = [0x80] := by decide

/-! ### General helper lemmas -/

theorem findHandlerLoop_definite (content : List Nat) (h : Handler) (post : List Handler)
    (hd : h.identify content = Confidence.definiteMatch) :
    ∀ (pre acc : List Handler), (∀ x ∈ pre, x.identify content ≠ Confidence.definiteMatch) →
      findHandlerLoop content acc (pre ++ h :: post) = [h] := by
  intro pre
  induction pre with
  | nil =>
    intro acc _
    simp only [List.nil_append, findHandlerLoop, hd]
  | cons x xs ih =>
    intro acc hpre
    have hx : x.identify content ≠ Confidence.definiteMatch :=
      hpre x (List.mem_cons_self x xs)
    have hxs : ∀ y ∈ xs, y.identify content ≠ Confidence.definiteMatch :=
      fun y hy => hpre y (List.mem_cons_of_mem x hy)
    rw [List.cons_append]
    cases hcx : x.identify content with
    | definiteMatch => exact absurd hcx hx
    | definiteNoMatch => simp only [findHandlerLoop, hcx]; exact ih acc hxs
    | possibleMatch => simp only [findHandlerLoop, hcx]; exact ih (acc ++ [x]) hxs

theorem findHandlerLoop_no_definite (content : List Nat) :
    ∀ (hs acc : List Handler), (∀ x ∈ hs, x.identify content ≠ Confidence.definiteMatch) →
      findHandlerLoop content acc hs
        = acc ++ hs.filter (fun x => x.identify content == Confidence.possibleMatch) := by
  intro hs
  induction hs with
  | nil => intro acc _; simp [findHandlerLoop]
  | cons x xs ih =>
    intro acc hpre
    have hx : x.identify content ≠ Confidence.definiteMatch :=
      hpre x (List.mem_cons_self x xs)
    have hxs : ∀ y ∈ xs, y.identify content ≠ Confidence.definiteMatch :=
      fun y hy => hpre y (List.mem_cons_of_mem x hy)
    cases hcx : x.identify content with
    | definiteMatch => exact absurd hcx hx
    | definiteNoMatch =>
      simp only [findHandlerLoop, hcx, List.filter_cons]
      rw [ih acc hxs]
      simp [hcx]
    | possibleMatch =>
      simp only [findHandlerLoop, hcx, List.filter_cons]
      rw [ih (acc ++ [x]) hxs]
      simp [hcx]

/-! ### Claim theorems for the registry -/

/-- C4.  Registry short-circuit: whatever handlers precede it (as long as
none of them is a definite match, i.e. the given one is the first definite
match), whatever handlers follow it, and whatever possible-match candidates
were accumulated, `findHandler` returns exactly the one definitely matching
handler. -/
theorem findHandler_definite_match_short_circuit (content : List Nat)
    (pre post : List Handler) (h : Handler)
    (hpre : ∀ x ∈ pre, x.identify content ≠ Confidence.definiteMatch)
    (hd : h.identify content = Confidence.definiteMatch) :
    findHandler (pre ++ h :: post) content = [h] :=
  findHandlerLoop_definite content h post hd pre [] hpre

/-- Witness for C4: handler A reports possible, B definite, C no-match;
`findHandler` returns exactly `[B]`. -/
theorem findHandler_definite_match_short_circuit_witness :
    (∀ x ∈ [handlerPossible], x.identify [] ≠ Confidence.definiteMatch) ∧
    handlerDefinite.identify [] = Confidence.definiteMatch ∧
    findHandler ([handlerPossible] ++ handlerDefinite :: [handlerNoMatch]) [] = [handlerDefinite] := by
  refine ⟨?_, rfl, ?_⟩
  · intro x hx
    rw [List.mem_singleton] at hx
    subst hx
    intro hc
    exact Confidence.noConfusion hc
  · refine findHandler_definite_match_short_circuit [] [handlerPossible] [handlerNoMatch]
      handlerDefinite ?_ rfl
    intro x hx
    rw [List.mem_singleton] at hx
    subst hx
    intro hc
    exact Confidence.noConfusion hc

/-- C5.  Registry ambiguity: when no handler reports a definite match,
`findHandler` returns exactly the possible-match handlers, in registry
order (the filter keeps order and drops every definite non-match). -/
theorem findHandler_possible_matches (content : List Nat) (hs : List Handler)
    (hnd : ∀ x ∈ hs, x.identify content ≠ Confidence.definiteMatch) :
    findHandler hs content
      = hs.filter (fun x => x.identify content == Confidence.possibleMatch) :=
  findHandlerLoop_no_definite content hs [] hnd

/-- Witness for C5: two possible-match handlers around a definite non-match
are returned, in order, with the non-match dropped. -/
theorem findHandler_possible_matches_witness :
    (∀ x ∈ [handlerPossible, handlerNoMatch, handlerPossibleB],
      x.identify [] ≠ Confidence.definiteMatch) ∧
    findHandler [handlerPossible, handlerNoMatch, handlerPossibleB] []
      = [handlerPossible, handlerPossibleB] := by
  have hnd : ∀ x ∈ [handlerPossible, handlerNoMatch, handlerPossibleB],
      x.identify [] ≠ Confidence.definiteMatch := by
    intro x hx
    rcases List.mem_cons.mp hx with h | hx
    · subst h; intro hc; exact Confidence.noConfusion hc
    rcases List.mem_cons.mp hx with h | hx
    · subst h; intro hc; exact Confidence.noConfusion hc
    rcases List.mem_cons.mp hx with h | hx
    · subst h; intro hc; exact Confidence.noConfusion hc
    · exact absurd hx (List.not_mem_nil x)
  exact ⟨hnd, findHandler_possible_matches [] _ hnd⟩

/-! ### Codec error-handling lemmas -/

theorem fromPlanar_error_of_nonpositive (content : List Nat) (planes : Nat)
    (planeWidth : Int) (msb : Bool) (hpw : planeWidth ≤ 0) :
    (∃ e, fromPlanar content planes planeWidth msb = Except.error e) ∧
    (1 ≤ planes →
      fromPlanar content planes planeWidth msb
        = Except.error (JsError.thrown (planeWidthErrorMessage planeWidth))) := by
  have hwb : (planeWidth + 7) / 8 ≤ 0 := by omega
  by_cases h0 : planes = 0 ∧ content.length ≠ 0
  · rw [fromPlanar, if_pos h0]
    exact ⟨⟨_, rfl⟩, fun h1 => absurd h0.1 (by omega)⟩
  · have key : fromPlanar content planes planeWidth msb
        = Except.error (JsError.thrown (planeWidthErrorMessage planeWidth)) := by
      rw [fromPlanar, if_neg h0]
      simp only [if_pos hwb]
    exact ⟨⟨_, key⟩, fun _ => key⟩

theorem length_orByte (out : List Nat) (idx v : Nat) :
    (orByte out idx v).length = out.length := by
  simp [orByte]

theorem length_jsWriteOr (out : List Nat) (idx : Option Int) (v : Nat) :
    (jsWriteOr out idx v).length = out.length := by
  cases idx with
  | none => rfl
  | some j =>
    simp only [jsWriteOr]
    split
    · exact length_orByte out j.toNat v
    · rfl

theorem length_toPlanarInner (planes : Nat)
    (widthBytes : Int) (pixelByte? : Option Int) (pixelBit data : Nat)
    (outpos : Int) (out : List Nat) :
    ((List.range planes).foldl (fun o b =>
        let val := ((data >>> (b % 32)) &&& 1) <<< pixelBit
        jsWriteOr o (pixelByte?.map (fun pb => outpos + pb + (b : Int) * widthBytes)) val)
      out).length = out.length := by
  induction (List.range planes) generalizing out with
  | nil => rfl
  | cons b rest ih =>
    rw [List.foldl_cons, ih]
    exact length_jsWriteOr out _ _

theorem length_toPlanarLoop (content : List Nat) (planes : Nat)
    (planeWidth widthBytes : Int) (msb : Bool) :
    ∀ (n i : Nat) (out : List Nat) (outpos : Int),
      (toPlanarLoop content planes planeWidth widthBytes msb n i out outpos).length
        = out.length := by
  intro n
  induction n with
  | zero => intro i out outpos; rfl
  | succ m ih =>
    intro i out outpos
    rw [toPlanarLoop, ih]
    exact length_toPlanarInner planes widthBytes _ _ _ outpos out

/-! ### Claim theorems for codec error handling -/

/-- C2.  Literal example: two planar bytes `0xAA`, `0x55` with two planes of
width 8, MSB first, decode to the eight pixels `1,2,1,2,1,2,1,2` (plane 0
contributes bit 0 from `0xAA`, plane 1 contributes bit 1 from `0x55`). -/
theorem fromPlanar_literal_example :
    fromPlanar [0xAA, 0x55] 2 8 true = Except.ok [1, 2, 1, 2, 1, 2, 1, 2] := rfl

/-- C3.  A plane width of zero or less always makes `fromPlanar` fail
before producing any output: the result is an `Except.error`, and whenever
the plane count is at least one the error is precisely the invalid-argument
`Error` thrown by the `widthBytes <= 0` guard (for `planes = 0` and
nonempty content the `Uint8Array` constructor throws a `RangeError`
first, still before any processing). -/
theorem fromPlanar_rejects_nonpositive_planeWidth (content : List Nat) (planes : Nat)
    (planeWidth : Int) (msb : Bool) (hpw : planeWidth ≤ 0) :
    (∃ e, fromPlanar content planes planeWidth msb = Except.error e) ∧
    (1 ≤ planes →
      fromPlanar content planes planeWidth msb
        = Except.error (JsError.thrown (planeWidthErrorMessage planeWidth))) :=
  fromPlanar_error_of_nonpositive content planes planeWidth msb hpw

/-- Witness for C3 at `content = [1,2,3]`, `planes = 4`, `planeWidth = 0`. -/
theorem fromPlanar_rejects_nonpositive_planeWidth_witness :
    ((0 : Int) ≤ 0) ∧
    (∃ e, fromPlanar [1, 2, 3] 4 0 true = Except.error e) ∧
    (1 ≤ 4 →
      fromPlanar [1, 2, 3] 4 0 true
        = Except.error (JsError.thrown (planeWidthErrorMessage 0))) :=
  ⟨le_refl 0, fromPlanar_rejects_nonpositive_planeWidth [1, 2, 3] 4 0 true (le_refl 0)⟩

/-- C10.  `toPlanar` performs no plane-width validation: for a zero or
negative plane width it still returns a buffer of `content.length * planes
/ 8` (truncated) bytes, while `fromPlanar` fails on the same plane width. -/
theorem toPlanar_no_planeWidth_validation (content : List Nat) (planes : Nat)
    (planeWidth : Int) (msb : Bool) (hpw : planeWidth ≤ 0) :
    (toPlanar content planes planeWidth msb).length = content.length * planes / 8 ∧
    (∃ e, fromPlanar content planes planeWidth msb = Except.error e) := by
  constructor
  · rw [toPlanar, length_toPlanarLoop]
    exact List.length_replicate _ _
  · exact (fromPlanar_error_of_nonpositive content planes planeWidth msb hpw).1

/-- Witness for C10 at `content = [7,7,7,7]`, `planes = 2`, `planeWidth = 0`. -/
theorem toPlanar_no_planeWidth_validation_witness :
    ((0 : Int) ≤ 0) ∧
    ((toPlanar [7, 7, 7, 7] 2 0 false).length = 4 * 2 / 8 ∧
      ∃ e, fromPlanar [7, 7, 7, 7] 2 0 false = Except.error e) :=
  ⟨le_refl 0, toPlanar_no_planeWidth_validation [7, 7, 7, 7] 2 0 false (le_refl 0)⟩

/-! ### Limits-validator lemmas -/

theorem head_fileCountIssue (a b : Nat) : (fileCountIssue a b).data.head? = some 'T' := by
  simp [fileCountIssue, String.data_append, toString]

theorem head_filenameIssue (l m : Nat) (nm : String) :
    (filenameIssue l m nm).data.head? = some 'F' := by
  simp [filenameIssue, String.data_append, toString]

theorem fileCountIssue_ne_filenameIssue (a b l m : Nat) (nm : String) :
    fileCountIssue a b ≠ filenameIssue l m nm := by
  intro h
  have h2 : (fileCountIssue a b).data.head? = (filenameIssue l m nm).data.head? := by rw [h]
  rw [head_fileCountIssue, head_filenameIssue] at h2
  exact absurd h2 (by decide)

theorem fileCountIssue_not_mem_filenameIssues (limits : ArchiveLimits) (archive : Archive)
    (a b : Nat) : fileCountIssue a b ∉ filenameIssues limits archive := by
  intro hmem
  rw [filenameIssues] at hmem
  split at hmem
  · obtain ⟨file, _, hfile⟩ := List.mem_filterMap.mp hmem
    split at hfile
    · exact fileCountIssue_ne_filenameIssue a b _ _ _ (Option.some.inj hfile).symm
    · exact Option.noConfusion hfile
  · exact absurd hmem (List.not_mem_nil _)

theorem foldl_filename_push (maxLen : Nat) (files : List ArchiveFile) :
    ∀ acc : List String,
      files.foldl (fun acc file =>
        if file.name.length > maxLen then acc ++ [filenameIssue file.name.length maxLen file.name]
        else acc) acc
      = acc ++ files.filterMap (fun file =>
          if file.name.length > maxLen then
            some (filenameIssue file.name.length maxLen file.name)
          else none) := by
  induction files with
  | nil => intro acc; simp
  | cons f rest ih =>
    intro acc
    rw [List.foldl_cons, List.filterMap_cons]
    by_cases hf : f.name.length > maxLen
    · rw [if_pos hf, if_pos hf, ih (acc ++ [filenameIssue f.name.length maxLen f.name])]
      simp
    · rw [if_neg hf, if_neg hf, ih acc]

/-! ### Claim theorems for the limits validator -/

/-- Counterexample for C7 as stated: `maxFileCount` is set (to 0) and the
collection length 1 exceeds it, yet `checkLimits` emits no issue at all,
because the JS guard tests truthiness and 0 is falsy. -/
theorem checkLimits_zero_maxFileCount_counterexample :
    (ArchiveLimits.mk none (some 0)).maxFileCount = some 0 ∧
    (Archive.mk [ArchiveFile.mk "A" 1 [0]]).files.length = 1 ∧
    checkLimits (ArchiveLimits.mk none (some 0)) (Archive.mk [ArchiveFile.mk "A" 1 [0]]) = [] :=
  ⟨rfl, rfl, rfl⟩

/-- C7 (amended: the limit must be set to a non-zero value).  When
`limits.maxFileCount` is a non-zero `m` and the collection holds more than
`m` files, `checkLimits` emits exactly one issue naming both counts; when
the length does not exceed `m`, no file-count issue appears at all. -/
theorem checkLimits_maxFileCount_issue (limits : ArchiveLimits) (archive : Archive) (m : Nat)
    (hset : limits.maxFileCount = some m) (hm : m ≠ 0) :
    (m < archive.files.length →
      (checkLimits limits archive).count (fileCountIssue archive.files.length m) = 1) ∧
    (archive.files.length ≤ m →
      ∀ a b, fileCountIssue a b ∉ checkLimits limits archive) := by
  have ht : jsTruthy limits.maxFileCount = true := by
    rw [hset]; simp [jsTruthy, hm]
  have hgetD : limits.maxFileCount.getD 0 = m := by rw [hset]; rfl
  constructor
  · intro hlt
    have hcond : jsTruthy limits.maxFileCount ∧
        archive.files.length > limits.maxFileCount.getD 0 := by
      rw [ht, hgetD]; exact ⟨rfl, hlt⟩
    rw [checkLimits, List.count_append, fileCountIssues, if_pos hcond, hgetD]
    rw [List.count_singleton]
    have hzero : (filenameIssues limits archive).count
        (fileCountIssue archive.files.length m) = 0 :=
      List.count_eq_zero.mpr (fileCountIssue_not_mem_filenameIssues limits archive _ m)
    rw [hzero]
    simp
  · intro hle a b hmem
    have hcond : ¬(jsTruthy limits.maxFileCount ∧
        archive.files.length > limits.maxFileCount.getD 0) := by
      rw [hgetD]; exact fun hc => absurd hc.2 (by omega)
    rw [checkLimits, fileCountIssues, if_neg hcond, List.nil_append] at hmem
    exact fileCountIssue_not_mem_filenameIssues limits archive a b hmem

/-- Witness for C7: five entries against a limit of three yield exactly one
file-count issue, and three entries against the same limit yield none. -/
theorem checkLimits_maxFileCount_issue_witness :
    ((ArchiveLimits.mk none (some 3)).maxFileCount = some 3) ∧ (3 ≠ 0) ∧
    (3 < (Archive.mk [ArchiveFile.mk "a" 1 [1], ArchiveFile.mk "b" 1 [1],
      ArchiveFile.mk "c" 1 [1], ArchiveFile.mk "d" 1 [1],
      ArchiveFile.mk "e" 1 [1]]).files.length) ∧
    (checkLimits (ArchiveLimits.mk none (some 3))
        (Archive.mk [ArchiveFile.mk "a" 1 [1], ArchiveFile.mk "b" 1 [1],
          ArchiveFile.mk "c" 1 [1], ArchiveFile.mk "d" 1 [1],
          ArchiveFile.mk "e" 1 [1]])).count (fileCountIssue 5 3) = 1 := by
  refine ⟨rfl, by decide, by decide, ?_⟩
  exact (checkLimits_maxFileCount_issue (ArchiveLimits.mk none (some 3))
    (Archive.mk [ArchiveFile.mk "a" 1 [1], ArchiveFile.mk "b" 1 [1],
      ArchiveFile.mk "c" 1 [1], ArchiveFile.mk "d" 1 [1],
      ArchiveFile.mk "e" 1 [1]]) 3 rfl (by decide)).1 (by decide)

/-- C8.  `checkLimits` never raises and never mutates the collection: the
statement-by-statement exception-monad rendering always returns `ok`, its
issue list is exactly the pure `checkLimits` result, and the archive value
after the call is the original archive. -/
theorem checkLimits_pure_no_mutation (limits : ArchiveLimits) (archive : Archive) :
    checkLimitsRun limits archive = Except.ok (checkLimits limits archive, archive) := by
  rw [checkLimitsRun, checkLimits]
  simp only [pure, Except.pure, Except.ok.injEq, Prod.mk.injEq, and_true]
  by_cases hc : jsTruthy limits.maxFileCount ∧
      archive.files.length > limits.maxFileCount.getD 0
  all_goals by_cases hn : jsTruthy limits.maxFilenameLen = true
  all_goals simp only [fileCountIssues, filenameIssues, if_pos, if_neg, hc, hn,
    if_true, if_false, List.nil_append, foldl_filename_push]
  all_goals simp [hc, hn, foldl_filename_push]

/-- C9.  A limit set to 0 is falsy in JS, so it behaves as unbounded: a zero
`maxFileCount` yields no file-count issue for any collection, and a zero
`maxFilenameLen` yields no filename-length issue for any entry. -/
theorem checkLimits_zero_limits_unbounded (limits : ArchiveLimits) (archive : Archive) :
    (limits.maxFileCount = some 0 →
      checkLimits limits archive = filenameIssues limits archive) ∧
    (limits.maxFilenameLen = some 0 →
      checkLimits limits archive = fileCountIssues limits archive) := by
  constructor
  · intro h
    have : fileCountIssues limits archive = [] := by
      rw [fileCountIssues, if_neg]
      rw [h]
      simp [jsTruthy]
    rw [checkLimits, this, List.nil_append]
  · intro h
    have : filenameIssues limits archive = [] := by
      rw [filenameIssues, if_neg]
      rw [h]
      simp [jsTruthy]
    rw [checkLimits, this, List.append_nil]

/-- Witness for C9 at a nonempty collection with a long filename and both
limits set to 0: no issue is emitted. -/
theorem checkLimits_zero_limits_unbounded_witness :
    ((ArchiveLimits.mk (some 0) (some 0)).maxFileCount = some 0 →
      checkLimits (ArchiveLimits.mk (some 0) (some 0))
          (Archive.mk [ArchiveFile.mk "averyverylongfilename.ext" 1 [1]])
        = filenameIssues (ArchiveLimits.mk (some 0) (some 0))
            (Archive.mk [ArchiveFile.mk "averyverylongfilename.ext" 1 [1]])) ∧
    ((ArchiveLimits.mk (some 0) (some 0)).maxFilenameLen = some 0 →
      checkLimits (ArchiveLimits.mk (some 0) (some 0))
          (Archive.mk [ArchiveFile.mk "averyverylongfilename.ext" 1 [1]])
        = fileCountIssues (ArchiveLimits.mk (some 0) (some 0))
            (Archive.mk [ArchiveFile.mk "averyverylongfilename.ext" 1 [1]])) :=
  checkLimits_zero_limits_unbounded (ArchiveLimits.mk (some 0) (some 0))
    (Archive.mk [ArchiveFile.mk "averyverylongfilename.ext" 1 [1]])

/-! ### Palette-index range lemmas -/

theorem orValue_bound (planes d s pl old : Nat) (hpl : pl < planes)
    (hold : old < 2 ^ planes) :
    (old ||| (((d >>> s) &&& 1) <<< (pl % 32))) % 256 < 2 ^ planes := by
  by_cases h8 : planes ≤ 8
  · have hpl32 : pl % 32 = pl := Nat.mod_eq_of_lt (by omega)
    have hbit : (d >>> s) &&& 1 ≤ 1 := Nat.and_le_right
    have hv : ((d >>> s) &&& 1) <<< (pl % 32) < 2 ^ planes := by
      rw [hpl32, Nat.shiftLeft_eq]
      calc ((d >>> s) &&& 1) * 2 ^ pl ≤ 1 * 2 ^ pl :=
            Nat.mul_le_mul_right _ hbit
        _ = 2 ^ pl := one_mul _
        _ < 2 ^ planes := Nat.pow_lt_pow_right (by norm_num) hpl
    have hor : old ||| ((d >>> s) &&& 1) <<< (pl % 32) < 2 ^ planes :=
      Nat.or_lt_two_pow hold hv
    rw [Nat.mod_eq_of_lt (lt_of_lt_of_le hor ?_)]
    · exact hor
    · calc (2 : Nat) ^ planes ≤ 2 ^ 8 := Nat.pow_le_pow_right (by norm_num) h8
        _ = 256 := by norm_num
  · have h256 : (256 : Nat) ≤ 2 ^ planes := by
      calc (256 : Nat) = 2 ^ 8 := by norm_num
        _ ≤ 2 ^ planes := Nat.pow_le_pow_right (by norm_num) (by omega)
    exact lt_of_lt_of_le (Nat.mod_lt _ (by norm_num)) h256

theorem getD_lt_of_mem_lt (out : List Nat) (idx B : Nat) (hB : 0 < B)
    (hout : ∀ x ∈ out, x < B) : out.getD idx 0 < B := by
  by_cases h : idx < out.length
  · rw [List.getD_eq_getElem out 0 h]
    exact hout _ (List.getElem_mem h)
  · rw [List.getD_eq_default out 0 (by omega)]
    exact hB

theorem fromPlanarInner_mem_bound (content : List Nat) (planes i plane pw : Nat)
    (msb : Bool) (outpos : Nat) (out : List Nat) (hpl : plane < planes)
    (hout : ∀ x ∈ out, x < 2 ^ planes) :
    ∀ x ∈ fromPlanarInner content i plane pw msb outpos out, x < 2 ^ planes := by
  rw [fromPlanarInner]
  generalize List.range pw = l
  induction l generalizing out with
  | nil => exact hout
  | cons b rest ih =>
    rw [List.foldl_cons]
    apply ih
    intro x hx
    rcases List.mem_or_eq_of_mem_set hx with h | h
    · exact hout x h
    · subst h
      exact orValue_bound planes _ _ plane _ hpl
        (getD_lt_of_mem_lt out (outpos + b) _ (Nat.pos_pow_of_pos planes (by norm_num)) hout)

theorem fromPlanarLoop_mem_bound (content : List Nat) (planes wb pw : Nat) (msb : Bool)
    (hp : 1 ≤ planes) :
    ∀ (n s : Nat) (out : List Nat) (outpos : Nat),
      (∀ x ∈ out, x < 2 ^ planes) →
      ∀ x ∈ fromPlanarLoop content planes wb pw msb n s out outpos, x < 2 ^ planes := by
  intro n
  induction n with
  | zero => intro s out outpos hout; exact hout
  | succ m ih =>
    intro s out outpos hout
    rw [fromPlanarLoop]
    exact ih (s + 1) _ _
      (fromPlanarInner_mem_bound content planes (s * wb) (s * wb / wb % planes) pw msb
        outpos out (Nat.mod_lt _ (by omega)) hout)

/-! ### Claim theorem for the palette-index invariant -/

/-- C6.  Every byte of the linear buffer `fromPlanar` returns is a palette
index below `2 ^ planes`: the buffer starts at zero and each store ORs in a
single bit shifted by the current plane (and keeps only the low byte). -/
theorem fromPlanar_palette_index_range (content : List Nat) (planes : Nat)
    (planeWidth : Int) (msb : Bool) (out : List Nat) (hp : 1 ≤ planes)
    (hpw : 0 < planeWidth)
    (hok : fromPlanar content planes planeWidth msb = Except.ok out) :
    ∀ x ∈ out, x < 2 ^ planes := by
  have h0 : ¬(planes = 0 ∧ content.length ≠ 0) := fun h => by omega
  have hwb : ¬((planeWidth + 7) / 8 ≤ 0) := by omega
  rw [fromPlanar, if_neg h0] at hok
  simp only [if_neg hwb, Except.ok.injEq] at hok
  subst hok
  exact fromPlanarLoop_mem_bound content planes _ _ msb hp _ 0 _ 0
    (fun x hx => by rw [List.eq_of_mem_replicate hx]; exact Nat.pos_pow_of_pos planes (by norm_num))

/-- Witness for C6 at `content = [0xAA, 0x55]`, `planes = 2`, `planeWidth = 8`. -/
theorem fromPlanar_palette_index_range_witness :
    (1 ≤ 2) ∧ ((0 : Int) < 8) ∧
    (∀ x ∈ [1, 2, 1, 2, 1, 2, 1, 2], x < 2 ^ 2) :=
  ⟨by decide, by decide,
    fromPlanar_palette_index_range [0xAA, 0x55] 2 8 true [1, 2, 1, 2, 1, 2, 1, 2]
      (by decide) (by decide) rfl⟩

/-! ### Write-list algebra -/

theorem applyWrites_append (out : List Nat) (a b : List (Nat × Nat)) :
    applyWrites out (a ++ b) = applyWrites (applyWrites out a) b := by
  simp [applyWrites, List.foldl_append]

theorem length_applyWrites (ws : List (Nat × Nat)) :
    ∀ out : List Nat, (applyWrites out ws).length = out.length := by
  induction ws with
  | nil => intro out; rfl
  | cons iv rest ih =>
    intro out
    rw [applyWrites, List.foldl_cons]
    rw [show (List.foldl (fun o iv => orByte o iv.1 iv.2) (orByte out iv.1 iv.2) rest)
        = applyWrites (orByte out iv.1 iv.2) rest from rfl]
    rw [ih, length_orByte]

theorem mem_bound_orByte (out : List Nat) (idx v : Nat)
    (hout : ∀ x ∈ out, x < 256) : ∀ x ∈ orByte out idx v, x < 256 := by
  intro x hx
  rcases List.mem_or_eq_of_mem_set hx with h | h
  · exact hout x h
  · subst h; exact Nat.mod_lt _ (by norm_num)

theorem mem_bound_applyWrites (ws : List (Nat × Nat)) :
    ∀ out : List Nat, (∀ x ∈ out, x < 256) →
      ∀ x ∈ applyWrites out ws, x < 256 := by
  induction ws with
  | nil => intro out hout; exact hout
  | cons iv rest ih =>
    intro out hout
    exact ih (orByte out iv.1 iv.2) (mem_bound_orByte out iv.1 iv.2 hout)

theorem getD_orByte (out : List Nat) (i v j : Nat) :
    (orByte out i v).getD j 0
      = if i = j ∧ j < out.length then (out.getD j 0 ||| v) % 256 else out.getD j 0 := by
  rw [orByte, List.getD_eq_getElem?_getD, List.getElem?_set]
  by_cases hij : i = j
  · subst hij
    by_cases hlen : i < out.length
    · rw [if_pos rfl, if_pos hlen, if_pos ⟨rfl, hlen⟩]
      rfl
    · rw [if_pos rfl, if_neg hlen, if_neg (fun hc => hlen hc.2),
        List.getD_eq_getElem?_getD, List.getElem?_eq_none (Nat.le_of_not_lt hlen)]
  · rw [if_neg hij, if_neg (fun hc => hij hc.1), List.getD_eq_getElem?_getD]

theorem or_mod256_or (a b : Nat) : ((a % 256) ||| b) % 256 = (a ||| b) % 256 := by
  have h256 : (256 : Nat) = 2 ^ 8 := by norm_num
  apply Nat.eq_of_testBit_eq
  intro i
  rw [h256]
  simp only [Nat.testBit_mod_two_pow, Nat.testBit_or]
  by_cases hi : i < 8 <;> simp [hi]

theorem getD_applyWrites (ws : List (Nat × Nat)) :
    ∀ (out : List Nat) (j : Nat), (∀ x ∈ out, x < 256) → j < out.length →
      (applyWrites out ws).getD j 0 = (out.getD j 0 ||| orWrites ws j) % 256 := by
  induction ws with
  | nil =>
    intro out j hout hj
    rw [show applyWrites out [] = out from rfl, show orWrites [] j = 0 from rfl,
      Nat.or_zero, Nat.mod_eq_of_lt (getD_lt_of_mem_lt out j 256 (by norm_num) hout)]
  | cons iv rest ih =>
    intro out j hout hj
    rw [show applyWrites out (iv :: rest) = applyWrites (orByte out iv.1 iv.2) rest from rfl]
    rw [ih (orByte out iv.1 iv.2) j (mem_bound_orByte out iv.1 iv.2 hout)
      (by rw [length_orByte]; exact hj)]
    rw [getD_orByte]
    rw [show orWrites (iv :: rest) j
        = if iv.1 = j then iv.2 ||| orWrites rest j else orWrites rest j from rfl]
    by_cases hij : iv.1 = j
    · rw [if_pos ⟨hij, hj⟩, if_pos hij, or_mod256_or, Nat.or_assoc]
    · rw [if_neg (fun hc => hij hc.1), if_neg hij]

theorem orWrites_cons (iv : Nat × Nat) (rest : List (Nat × Nat)) (j : Nat) :
    orWrites (iv :: rest) j
      = if iv.1 = j then iv.2 ||| orWrites rest j else orWrites rest j := rfl

theorem orWrites_singleton (iv : Nat × Nat) (j : Nat) :
    orWrites [iv] j = if iv.1 = j then iv.2 else 0 := by
  rw [orWrites_cons]
  by_cases hij : iv.1 = j
  · rw [if_pos hij, if_pos hij, show orWrites ([] : List (Nat × Nat)) j = 0 from rfl,
      Nat.or_zero]
  · rw [if_neg hij, if_neg hij]
    rfl

theorem orWrites_append (a b : List (Nat × Nat)) (j : Nat) :
    orWrites (a ++ b) j = orWrites a j ||| orWrites b j := by
  induction a with
  | nil =>
    rw [List.nil_append, show orWrites ([] : List (Nat × Nat)) j = 0 from rfl, Nat.zero_or]
  | cons iv rest ih =>
    rw [List.cons_append, orWrites_cons, orWrites_cons, ih]
    by_cases hij : iv.1 = j
    · rw [if_pos hij, if_pos hij, Nat.or_assoc]
    · rw [if_neg hij, if_neg hij]

theorem orJoin_append (a b : List Nat) :
    orJoin (a ++ b) = orJoin a ||| orJoin b := by
  induction a with
  | nil => simp [orJoin]
  | cons x rest ih =>
    rw [List.cons_append, orJoin, List.foldr_cons, orJoin, List.foldr_cons]
    rw [show (List.foldr (fun x acc => x ||| acc) 0 (rest ++ b)) = orJoin (rest ++ b) from rfl,
      show (List.foldr (fun x acc => x ||| acc) 0 rest) = orJoin rest from rfl, ih,
      Nat.or_assoc]

theorem orJoin_cons (x : Nat) (l : List Nat) : orJoin (x :: l) = x ||| orJoin l := rfl

theorem orJoin_singleton (x : Nat) : orJoin [x] = x := by
  rw [orJoin_cons, show orJoin [] = 0 from rfl, Nat.or_zero]

theorem orWrites_map_range (n : Nat) (f : Nat → Nat × Nat) (j : Nat) :
    orWrites ((List.range n).map f) j
      = orJoin ((List.range n).map (fun b => if (f b).1 = j then (f b).2 else 0)) := by
  induction n with
  | zero => rfl
  | succ m ih =>
    rw [List.range_succ, List.map_append, List.map_append, orWrites_append, orJoin_append, ih]
    congr 1
    rw [show (List.map f [m]) = [f m] from rfl,
      show (List.map (fun b => if (f b).1 = j then (f b).2 else 0) [m])
        = [if (f m).1 = j then (f m).2 else 0] from rfl,
      orWrites_singleton, orJoin_singleton]

theorem orJoin_range_succ (n : Nat) (f : Nat → Nat) :
    orJoin ((List.range (n + 1)).map f) = orJoin ((List.range n).map f) ||| f n := by
  rw [List.range_succ, List.map_append, orJoin_append]
  congr 1
  rw [show (List.map f [n]) = [f n] from rfl, orJoin_singleton]

theorem orJoin_congr (n : Nat) (f g : Nat → Nat) (h : ∀ b < n, f b = g b) :
    orJoin ((List.range n).map f) = orJoin ((List.range n).map g) := by
  induction n with
  | zero => rfl
  | succ m ih =>
    rw [orJoin_range_succ, orJoin_range_succ, h m (by omega),
      ih (fun b hb => h b (by omega))]

theorem orJoin_zero (n : Nat) (f : Nat → Nat) (h : ∀ b < n, f b = 0) :
    orJoin ((List.range n).map f) = 0 := by
  induction n with
  | zero => rfl
  | succ m ih =>
    rw [orJoin_range_succ, h m (by omega), Nat.or_zero, ih (fun b hb => h b (by omega))]

theorem orJoin_single (n b0 : Nat) (F : Nat → Nat) (hb0 : b0 < n) :
    orJoin ((List.range n).map (fun b => if b = b0 then F b else 0)) = F b0 := by
  induction n with
  | zero => omega
  | succ m ih =>
    rw [orJoin_range_succ]
    by_cases hm : b0 < m
    · rw [if_neg (show ¬(m = b0) by omega), Nat.or_zero]
      exact ih hm
    · have hb : m = b0 := by omega
      rw [if_pos hb, hb,
        orJoin_zero b0 _ (fun b hb2 => if_neg (show ¬(b = b0) by omega)), Nat.zero_or]

theorem orJoin_lt_two_pow (l : List Nat) (n : Nat) (h : ∀ x ∈ l, x < 2 ^ n) :
    orJoin l < 2 ^ n := by
  induction l with
  | nil => exact Nat.pos_pow_of_pos n (by norm_num)
  | cons x rest ih =>
    rw [orJoin_cons]
    exact Nat.or_lt_two_pow (h x (List.mem_cons_self x rest))
      (ih (fun y hy => h y (List.mem_cons_of_mem x hy)))

theorem orJoin_range_zero_above (a : Nat) (f : Nat → Nat) :
    ∀ n, a ≤ n → (∀ u, a ≤ u → u < n → f u = 0) →
      orJoin ((List.range n).map f) = orJoin ((List.range a).map f) := by
  intro n
  induction n with
  | zero =>
    intro h _
    have ha : a = 0 := by omega
    rw [ha]
  | succ m ih =>
    intro h hsupp
    by_cases hm : a ≤ m
    · rw [orJoin_range_succ, hsupp m hm (by omega), Nat.or_zero]
      exact ih hm (fun u hu1 hu2 => hsupp u hu1 (by omega))
    · have ha : a = m + 1 := by omega
      rw [ha]

theorem orJoin_range_shift (a : Nat) (f : Nat → Nat) (hbelow : ∀ u, u < a → f u = 0) :
    ∀ c, orJoin ((List.range (a + c)).map f)
      = orJoin ((List.range c).map (fun t => f (a + t))) := by
  intro c
  induction c with
  | zero => exact orJoin_zero a f hbelow
  | succ d ih =>
    have hs : a + (d + 1) = (a + d) + 1 := by omega
    rw [hs, orJoin_range_succ, orJoin_range_succ, ih]

theorem orJoin_window (n a c : Nat) (f : Nat → Nat) (hac : a + c ≤ n)
    (hsupp : ∀ u, u < n → (u < a ∨ a + c ≤ u) → f u = 0) :
    orJoin ((List.range n).map f) = orJoin ((List.range c).map (fun t => f (a + t))) := by
  rw [orJoin_range_zero_above (a + c) f n hac (fun u hu1 hu2 => hsupp u hu2 (Or.inr hu1))]
  exact orJoin_range_shift a f (fun u hu => hsupp u (by omega) (Or.inl hu)) c

/-! ### Loop / write-list equivalence -/

theorem fromPlanarInner_eq_applyWrites (content : List Nat) (i plane pw : Nat)
    (msb : Bool) (outpos : Nat) (out : List Nat) :
    fromPlanarInner content i plane pw msb outpos out
      = applyWrites out (fromPlanarInnerWrites content i plane pw msb outpos) := by
  rw [fromPlanarInner, fromPlanarInnerWrites, applyWrites, List.foldl_map]

theorem fromPlanarLoop_eq_applyWrites (content : List Nat) (planes wb pw : Nat)
    (msb : Bool) :
    ∀ (n s outpos : Nat) (out : List Nat),
      fromPlanarLoop content planes wb pw msb n s out outpos
        = applyWrites out (fromPlanarWrites content planes wb pw msb n s outpos) := by
  intro n
  induction n with
  | zero => intro s outpos out; rfl
  | succ m ih =>
    intro s outpos out
    simp only [fromPlanarLoop, fromPlanarWrites]
    rw [applyWrites_append, ← fromPlanarInner_eq_applyWrites]
    exact ih (s + 1) _ _

theorem jsWriteOr_ofNat (out : List Nat) (n v : Nat) :
    jsWriteOr out (some ((n : Nat) : Int)) v = orByte out n v := by
  simp only [jsWriteOr, if_pos (Int.ofNat_nonneg n), Int.toNat_ofNat]

theorem toPlanarLoop_eq_applyWrites (content : List Nat) (planes pwN wbN : Nat)
    (msb : Bool) (hwb : 1 ≤ wbN) (hpw : 1 ≤ pwN) :
    ∀ (n i P : Nat) (out : List Nat),
      toPlanarLoop content planes (pwN : Int) (wbN : Int) msb n i out (P : Int)
        = applyWrites out (toPlanarWrites content planes wbN pwN msb n i P) := by
  intro n
  induction n with
  | zero => intro i P out; rfl
  | succ m ih =>
    intro i P out
    simp only [toPlanarLoop, toPlanarWrites]
    have hwb0 : ¬((wbN : Int) = 0) := Int.natCast_ne_zero.mpr (by omega)
    rw [if_neg hwb0]
    have hcond : (((pwN : Int)) ≠ 0 ∧ Int.tmod (i : Int) (pwN : Int) = (pwN : Int) - 1)
        ↔ (i % pwN = pwN - 1) := by
      constructor
      · rintro ⟨-, h⟩
        have h2 : ((i % pwN : Nat) : Int) = (pwN : Int) - 1 := by
          rw [← show Int.tmod (i : Int) (pwN : Int) = ((i % pwN : Nat) : Int) from rfl, h]
        omega
      · intro h
        refine ⟨Int.natCast_ne_zero.mpr (by omega), ?_⟩
        rw [show Int.tmod (i : Int) (pwN : Int) = ((i % pwN : Nat) : Int) from rfl, h]
        omega
    rw [if_congr hcond rfl rfl]
    rw [show ((P : Int) + (planes : Int) * (wbN : Int))
        = ((P + planes * wbN : Nat) : Int) by push_cast; ring]
    rw [← apply_ite (fun x : Nat => (x : Int)) (i % pwN = pwN - 1) (P + planes * wbN) P]
    rw [applyWrites_append]
    rw [ih (i + 1) _ _]
    congr 1
    rw [applyWrites, List.foldl_map]
    refine List.foldl_ext _ _ out (fun o b _ => ?_)
    rw [show Int.tmod ((i / 8 : Nat) : Int) (wbN : Int) = ((i / 8 % wbN : Nat) : Int) from rfl]
    rw [Option.map_some']
    rw [show ((P : Int) + ((i / 8 % wbN : Nat) : Int) + (b : Int) * (wbN : Int))
        = ((P + i / 8 % wbN + b * wbN : Nat) : Int) by push_cast; ring]
    rw [jsWriteOr_ofNat]

/-! ### Closed forms for the codec write lists -/

theorem mod_eq_pred_iff_dvd (q s : Nat) (hq : 1 ≤ q) :
    q ∣ s + 1 ↔ s % q = q - 1 := by
  have hdm := Nat.div_add_mod s q
  constructor
  · rintro ⟨k, hk⟩
    rcases Nat.eq_zero_or_pos k with rfl | hkpos
    · omega
    · have hk' : s = q * (k - 1) + (q - 1) := by
        have hqk : q * k = q * (k - 1) + q := by
          have hk1 : k - 1 + 1 = k := by omega
          calc q * k = q * ((k - 1) + 1) := by rw [hk1]
            _ = q * (k - 1) + q := Nat.mul_succ q (k - 1)
        omega
      rw [hk', Nat.mul_add_mod]
      exact Nat.mod_eq_of_lt (by omega)
  · intro h
    refine ⟨s / q + 1, ?_⟩
    rw [Nat.mul_succ]
    omega

theorem succ_div_eq (s q : Nat) (hq : 1 ≤ q) :
    (s + 1) / q = s / q + if s % q = q - 1 then 1 else 0 := by
  rw [Nat.succ_div, if_congr (mod_eq_pred_iff_dvd q s hq) rfl rfl]

theorem orWrites_map_range_split (n : Nat) (idx val : Nat → Nat) (j : Nat) :
    orWrites ((List.range n).map (fun b => (idx b, val b))) j
      = orJoin ((List.range n).map (fun b => if idx b = j then val b else 0)) := by
  induction n with
  | zero => rfl
  | succ m ih =>
    rw [List.range_succ, List.map_append, List.map_append, orWrites_append, orJoin_append, ih]
    congr 1
    rw [show (List.map (fun b => (idx b, val b)) [m]) = [(idx m, val m)] from rfl,
      show (List.map (fun b => if idx b = j then val b else 0) [m])
        = [if idx m = j then val m else 0] from rfl,
      orWrites_singleton, orJoin_singleton]

theorem orWrites_fromPlanarInnerWrites (content : List Nat) (i plane : Nat)
    (msb : Bool) (outpos j pw : Nat) :
    orWrites (fromPlanarInnerWrites content i plane pw msb outpos) j
      = if outpos ≤ j ∧ j < outpos + pw then
          ((content.getD (i + (j - outpos) / 8) 0 >>>
              (if msb then 7 - (j - outpos) % 8 else (j - outpos) % 8)) &&& 1)
            <<< (plane % 32)
        else 0 := by
  rw [fromPlanarInnerWrites, orWrites_map_range_split pw (fun b => outpos + b)]
  by_cases hin : outpos ≤ j ∧ j < outpos + pw
  · rw [if_pos hin]
    have hcongr : ∀ b, b < pw →
        (if outpos + b = j then
          ((content.getD (i + b / 8) 0 >>> (if msb then 7 - b % 8 else b % 8)) &&& 1)
            <<< (plane % 32) else 0)
        = (if b = j - outpos then
          ((content.getD (i + b / 8) 0 >>> (if msb then 7 - b % 8 else b % 8)) &&& 1)
            <<< (plane % 32) else 0) := by
      intro b hb
      by_cases hbj : outpos + b = j
      · rw [if_pos hbj, if_pos (show b = j - outpos by omega)]
      · rw [if_neg hbj, if_neg (show ¬(b = j - outpos) by omega)]
    rw [orJoin_congr pw _ _ hcongr,
      orJoin_single pw (j - outpos) _ (show j - outpos < pw by omega)]
  · rw [if_neg hin]
    exact orJoin_zero pw _ (fun b hb => if_neg (show ¬(outpos + b = j) by omega))

theorem orWrites_fromPlanarWrites (content : List Nat) (planes wb pw : Nat) (msb : Bool)
    (hp : 1 ≤ planes) (hwb : 1 ≤ wb) :
    ∀ (n s j : Nat),
      orWrites (fromPlanarWrites content planes wb pw msb n s (pw * (s / planes))) j
        = orJoin ((List.range n).map (fun t =>
            orWrites (fromPlanarInnerWrites content ((s + t) * wb) ((s + t) % planes)
              pw msb (pw * ((s + t) / planes))) j)) := by
  intro n
  induction n with
  | zero => intro s j; rfl
  | succ m ih =>
    intro s j
    rw [fromPlanarWrites, orWrites_append]
    have hsw : s * wb / wb = s := Nat.mul_div_cancel s hwb
    have hpos : (if s * wb / wb % planes = planes - 1 then pw * (s / planes) + pw
        else pw * (s / planes)) = pw * ((s + 1) / planes) := by
      rw [hsw, succ_div_eq s planes hp]
      by_cases hc : s % planes = planes - 1
      · rw [if_pos hc, if_pos hc, Nat.mul_add, Nat.mul_one]
      · rw [if_neg hc, if_neg hc, Nat.add_zero]
    rw [hpos, ih (s + 1) j]
    rw [List.range_succ_eq_map, List.map_cons, orJoin_cons]
    congr 1
    · rw [hsw, Nat.add_zero]
    · rw [List.map_map]
      exact orJoin_congr m _ _ (fun t ht => by
        rw [show s + 1 + t = s + (t + 1) from by omega]
        rfl)

theorem orWrites_toPlanarWrites (content : List Nat) (planes wb pw : Nat) (msb : Bool)
    (hpw : 1 ≤ pw) :
    ∀ (n i j : Nat),
      orWrites (toPlanarWrites content planes wb pw msb n i (planes * wb * (i / pw))) j
        = orJoin ((List.range n).map (fun t =>
            orWrites (toPlanarPixelWrites content planes wb pw msb (i + t)) j)) := by
  intro n
  induction n with
  | zero => intro i j; rfl
  | succ m ih =>
    intro i j
    rw [toPlanarWrites, orWrites_append]
    have hpos : (if i % pw = pw - 1 then planes * wb * (i / pw) + planes * wb
        else planes * wb * (i / pw)) = planes * wb * ((i + 1) / pw) := by
      rw [succ_div_eq i pw hpw]
      by_cases hc : i % pw = pw - 1
      · rw [if_pos hc, if_pos hc, Nat.mul_add, Nat.mul_one]
      · rw [if_neg hc, if_neg hc, Nat.add_zero]
    rw [hpos, ih (i + 1) j]
    rw [List.range_succ_eq_map, List.map_cons, orJoin_cons]
    congr 1
    rw [List.map_map]
    exact orJoin_congr m _ _ (fun t ht => by
      rw [show i + 1 + t = i + (t + 1) from by omega]
      rfl)

/-! ### Bit-level lemmas -/

theorem shiftRight_and_one (x i : Nat) :
    (x >>> i) &&& 1 = if x.testBit i then 1 else 0 := by
  rw [Nat.and_one_is_mod, Nat.shiftRight_eq_div_pow]
  rcases Nat.mod_two_eq_zero_or_one (x / 2 ^ i) with h | h <;>
    simp [Nat.testBit_to_div_mod, h]

theorem testBit_orJoin_shifts (p : Nat) (F : Nat → Nat) (hF : ∀ t, F t ≤ 1) :
    ∀ pl, pl < p →
      (orJoin ((List.range p).map (fun t => F t <<< t))).testBit pl = decide (F pl = 1) := by
  induction p with
  | zero => intro pl h; omega
  | succ m ih =>
    intro pl hpl
    rw [orJoin_range_succ, Nat.testBit_or]
    by_cases hm : pl < m
    · rw [ih pl hm]
      have h2 : (F m <<< m).testBit pl = false := by
        rcases Nat.le_one_iff_eq_zero_or_eq_one.mp (hF m) with h0 | h1
        · rw [h0, Nat.zero_shiftLeft, Nat.zero_testBit]
        · rw [h1, Nat.shiftLeft_eq, Nat.one_mul, Nat.testBit_two_pow]
          simp
          omega
      rw [h2, Bool.or_false]
    · have hplm : pl = m := by omega
      subst hplm
      have h1 : (orJoin ((List.range pl).map (fun t => F t <<< t))).testBit pl = false := by
        apply Nat.testBit_lt_two_pow
        apply orJoin_lt_two_pow
        intro x hx
        obtain ⟨t, ht, rfl⟩ := List.mem_map.mp hx
        have htlt : t < pl := List.mem_range.mp ht
        rw [Nat.shiftLeft_eq]
        calc F t * 2 ^ t ≤ 1 * 2 ^ t := Nat.mul_le_mul_right _ (hF t)
          _ = 2 ^ t := Nat.one_mul _
          _ < 2 ^ pl := Nat.pow_lt_pow_right (by norm_num) htlt
      rw [h1, Bool.false_or]
      rcases Nat.le_one_iff_eq_zero_or_eq_one.mp (hF pl) with h0 | h1
      · rw [h0, Nat.zero_shiftLeft, Nat.zero_testBit]
        simp [h0]
      · rw [h1, Nat.shiftLeft_eq, Nat.one_mul, Nat.testBit_two_pow]
        simp [h1]

theorem extract_bit_orJoin (p : Nat) (F : Nat → Nat) (hF : ∀ t, F t ≤ 1)
    (pl : Nat) (hpl : pl < p) (hp8 : p ≤ 8) :
    (((orJoin ((List.range p).map (fun t => F t <<< t))) % 256) >>> pl) &&& 1 = F pl := by
  have hXlt : orJoin ((List.range p).map (fun t => F t <<< t)) < 256 := by
    have h2 : (256 : Nat) = 2 ^ 8 := by norm_num
    rw [h2]
    apply orJoin_lt_two_pow
    intro x hx
    obtain ⟨t, ht, rfl⟩ := List.mem_map.mp hx
    have htlt : t < p := List.mem_range.mp ht
    rw [Nat.shiftLeft_eq]
    calc F t * 2 ^ t ≤ 1 * 2 ^ t := Nat.mul_le_mul_right _ (hF t)
      _ = 2 ^ t := Nat.one_mul _
      _ < 2 ^ 8 := Nat.pow_lt_pow_right (by norm_num) (by omega)
  rw [Nat.mod_eq_of_lt hXlt, shiftRight_and_one, testBit_orJoin_shifts p F hF pl hpl]
  rcases Nat.le_one_iff_eq_zero_or_eq_one.mp (hF pl) with h0 | h1
  · simp [h0]
  · simp [h1]

set_option maxRecDepth 4096 in
theorem byte_reassemble_msb_aux : ∀ x, x < 256 →
    (orJoin ((List.range 8).map (fun t =>
      ((x >>> (7 - t % 8)) &&& 1) <<< (7 - t % 8)))) % 256 = x := by decide

set_option maxRecDepth 4096 in
theorem byte_reassemble_lsb_aux : ∀ x, x < 256 →
    (orJoin ((List.range 8).map (fun t =>
      ((x >>> (t % 8)) &&& 1) <<< (t % 8)))) % 256 = x := by decide

theorem byte_reassemble (msb : Bool) (x : Nat) (hx : x < 256) :
    (orJoin ((List.range 8).map (fun t =>
        ((x >>> (if msb then 7 - t % 8 else t % 8)) &&& 1)
          <<< (if msb then 7 - t % 8 else t % 8)))) % 256 = x := by
  cases msb
  · exact byte_reassemble_lsb_aux x hx
  · exact byte_reassemble_msb_aux x hx

/-! ### Index-arithmetic helpers -/

theorem window_div_eq (n G g b0 : Nat) (hb0 : b0 < n) (h1 : n * G ≤ n * g + b0)
    (h2 : n * g + b0 < n * G + n) : G = g := by
  rcases Nat.lt_trichotomy G g with h | h | h
  · exfalso
    have h3 : n * (G + 1) ≤ n * g := Nat.mul_le_mul_left n (by omega)
    rw [Nat.mul_succ] at h3
    omega
  · exact h
  · exfalso
    have h3 : n * (g + 1) ≤ n * G := Nat.mul_le_mul_left n (by omega)
    rw [Nat.mul_succ] at h3
    omega

theorem mul_add_div_eq (p g t : Nat) (hp : 0 < p) (ht : t < p) : (g * p + t) / p = g := by
  rw [Nat.mul_comm, Nat.mul_add_div hp, Nat.div_eq_of_lt ht, Nat.add_zero]

theorem mul_add_mod_eq (p g t : Nat) (ht : t < p) : (g * p + t) % p = t := by
  rw [Nat.mul_comm, Nat.mul_add_mod, Nat.mod_eq_of_lt ht]

/-! ### Closed form of fromPlanar under round-trip hypotheses -/

theorem getD_replicate_zero (n j : Nat) : (List.replicate n (0 : Nat)).getD j 0 = 0 := by
  rw [List.getD_eq_getElem?_getD, List.getElem?_replicate]
  split <;> rfl

theorem fromPlanar_closed_form (content : List Nat) (p wb k : Nat) (msb : Bool)
    (hp : 1 ≤ p) (hp8 : p ≤ 8) (hwb : 1 ≤ wb) (hL : content.length = k * (wb * p)) :
    fromPlanar content p ((8 * wb : Nat) : Int) msb
        = Except.ok (applyWrites (List.replicate (8 * (k * wb)) 0)
            (fromPlanarWrites content p wb (8 * wb) msb (k * p) 0 0))
      ∧ ∀ g b0, g < k → b0 < 8 * wb →
          (applyWrites (List.replicate (8 * (k * wb)) 0)
              (fromPlanarWrites content p wb (8 * wb) msb (k * p) 0 0)).getD
            (8 * wb * g + b0) 0
            = (orJoin ((List.range p).map (fun pl =>
                ((content.getD ((g * p + pl) * wb + b0 / 8) 0 >>>
                    (if msb then 7 - b0 % 8 else b0 % 8)) &&& 1) <<< pl))) % 256 := by
  constructor
  · have h0 : ¬(p = 0 ∧ content.length ≠ 0) := fun h => by omega
    have hwbi : ((((8 * wb : Nat) : Int)) + 7) / 8 = (wb : Int) := by
      rw [show ((8 * wb : Nat) : Int) = 8 * (wb : Int) by push_cast; ring]
      omega
    have hwbpos : ¬(((((8 * wb : Nat) : Int)) + 7) / 8 ≤ 0) := by
      rw [hwbi]
      omega
    rw [fromPlanar, if_neg h0]
    simp only [if_neg hwbpos, hwbi, Int.toNat_ofNat]
    have hstr : (content.length + wb - 1) / wb = k * p := by
      rw [hL]
      have h2 : k * (wb * p) + wb - 1 = wb * (k * p) + (wb - 1) := by
        rw [show k * (wb * p) = wb * (k * p) from by ring]
        omega
      rw [h2, Nat.mul_add_div hwb, Nat.div_eq_of_lt (by omega), Nat.add_zero]
    have hlen0 : content.length * 8 / p = 8 * (k * wb) := by
      rw [hL, show k * (wb * p) * 8 = (8 * (k * wb)) * p from by ring,
        Nat.mul_div_cancel _ hp]
    rw [hstr, hlen0, fromPlanarLoop_eq_applyWrites]
    rw [if_neg (show ¬((wb : Int) ≤ 0) from by omega)]
  · intro g b0 hg hb0
    have hjlt : 8 * wb * g + b0 < 8 * (k * wb) := by
      have h1 : 8 * wb * (g + 1) ≤ 8 * wb * k := Nat.mul_le_mul_left _ (by omega)
      rw [Nat.mul_succ] at h1
      have h2 : 8 * wb * k = 8 * (k * wb) := by ring
      omega
    rw [getD_applyWrites _ _ _
      (fun x hx => by rw [List.eq_of_mem_replicate hx]; norm_num)
      (by rw [List.length_replicate]; exact hjlt)]
    rw [getD_replicate_zero, Nat.zero_or]
    have hflat := orWrites_fromPlanarWrites content p wb (8 * wb) msb hp hwb (k * p) 0
      (8 * wb * g + b0)
    simp only [Nat.zero_div, Nat.mul_zero, Nat.zero_add] at hflat
    rw [hflat]
    rw [orJoin_congr (k * p) _ _ (fun t ht =>
      orWrites_fromPlanarInnerWrites content (t * wb) (t % p) msb (8 * wb * (t / p))
        (8 * wb * g + b0) (8 * wb))]
    have hcond : ∀ t, t < k * p →
        (if 8 * wb * (t / p) ≤ 8 * wb * g + b0
            ∧ 8 * wb * g + b0 < 8 * wb * (t / p) + 8 * wb then
          ((content.getD (t * wb + (8 * wb * g + b0 - 8 * wb * (t / p)) / 8) 0 >>>
              (if msb then 7 - (8 * wb * g + b0 - 8 * wb * (t / p)) % 8
               else (8 * wb * g + b0 - 8 * wb * (t / p)) % 8)) &&& 1) <<< (t % p % 32)
         else 0)
        = (if t / p = g then
            ((content.getD (t * wb + b0 / 8) 0 >>>
                (if msb then 7 - b0 % 8 else b0 % 8)) &&& 1) <<< (t % p % 32)
           else 0) := by
      intro t ht
      by_cases hdg : t / p = g
      · rw [hdg, if_pos (by constructor <;> omega),
          show 8 * wb * g + b0 - 8 * wb * g = b0 from by omega, if_pos rfl]
      · rw [if_neg (fun hw => hdg (window_div_eq (8 * wb) (t / p) g b0 hb0 hw.1 hw.2)),
          if_neg hdg]
    rw [orJoin_congr (k * p) _ _ hcond]
    have hac : g * p + p ≤ k * p := by
      have h1 : (g + 1) * p ≤ k * p := Nat.mul_le_mul_right p (by omega)
      rw [Nat.succ_mul] at h1
      exact h1
    rw [orJoin_window (k * p) (g * p) p _ hac (fun u hu hor => by
      refine if_neg (fun hdg => ?_)
      rcases hor with h | h
      · have : u / p < g := (Nat.div_lt_iff_lt_mul (by omega)).mpr h
        omega
      · have h2 : (g + 1) * p ≤ u := by rw [Nat.succ_mul]; omega
        have : g + 1 ≤ u / p := (Nat.le_div_iff_mul_le (by omega)).mpr h2
        omega)]
    rw [orJoin_congr p _ _ (fun pl hpl => by
      rw [if_pos (mul_add_div_eq p g pl (by omega) hpl), mul_add_mod_eq p g pl hpl,
        Nat.mod_eq_of_lt (show pl < 32 by omega)])]

/-! ### Closed form of toPlanar under round-trip hypotheses -/

theorem toPlanar_closed_form (lin : List Nat) (p wb k : Nat) (msb : Bool)
    (hwb : 1 ≤ wb) (hN : lin.length = 8 * (k * wb)) :
    toPlanar lin p ((8 * wb : Nat) : Int) msb
      = applyWrites (List.replicate (k * (wb * p)) 0)
          (toPlanarWrites lin p wb (8 * wb) msb (8 * (k * wb)) 0 0) := by
  have hwbi : ((((8 * wb : Nat) : Int)) + 7) / 8 = (wb : Int) := by
    rw [show ((8 * wb : Nat) : Int) = 8 * (wb : Int) by push_cast; ring]
    omega
  have hlen : 8 * (k * wb) * p / 8 = k * (wb * p) := by
    rw [show 8 * (k * wb) * p = k * (wb * p) * 8 from by ring,
      Nat.mul_div_cancel _ (by norm_num)]
  rw [toPlanar]
  simp only [hwbi, hN, hlen]
  exact toPlanarLoop_eq_applyWrites lin p (8 * wb) wb msb hwb (by omega) (8 * (k * wb)) 0 0 _

theorem orWrites_toPlanar_at (lin : List Nat) (p wb : Nat) (msb : Bool) (k g pl c : Nat)
    (hp : 1 ≤ p) (hwb : 1 ≤ wb) (hg : g < k) (hpl : pl < p) (hc : c < wb) :
    orWrites (toPlanarWrites lin p wb (8 * wb) msb (8 * (k * wb)) 0 0)
        (p * wb * g + pl * wb + c)
      = orJoin ((List.range 8).map (fun t =>
          ((lin.getD (8 * wb * g + (8 * c + t)) 0 >>> (pl % 32)) &&& 1)
            <<< (if msb then 7 - t % 8 else t % 8))) := by
  have hflat := orWrites_toPlanarWrites lin p wb (8 * wb) msb (by omega) (8 * (k * wb)) 0
    (p * wb * g + pl * wb + c)
  simp only [Nat.zero_div, Nat.mul_zero, Nat.zero_add] at hflat
  rw [hflat]
  have hper : ∀ u, u < 8 * (k * wb) →
      orWrites (toPlanarPixelWrites lin p wb (8 * wb) msb u) (p * wb * g + pl * wb + c)
        = (if u / (8 * wb) = g ∧ u / 8 % wb = c then
            ((lin.getD u 0 >>> (pl % 32)) &&& 1)
              <<< (if msb then 7 - u % 8 else u % 8)
           else 0) := by
    intro u hu
    rw [toPlanarPixelWrites,
      orWrites_map_range_split p (fun b => p * wb * (u / (8 * wb)) + u / 8 % wb + b * wb)]
    by_cases hit : u / (8 * wb) = g ∧ u / 8 % wb = c
    · rw [if_pos hit, hit.1, hit.2]
      have hcongr : ∀ b, b < p →
          (if p * wb * g + c + b * wb = p * wb * g + pl * wb + c then
            ((lin.getD u 0 >>> (b % 32)) &&& 1)
              <<< (if msb then 7 - u % 8 else u % 8) else 0)
          = (if b = pl then
            ((lin.getD u 0 >>> (b % 32)) &&& 1)
              <<< (if msb then 7 - u % 8 else u % 8) else 0) := by
        intro b hb
        by_cases hbj : p * wb * g + c + b * wb = p * wb * g + pl * wb + c
        · have hbpl : b = pl := by
            have h2 : b * wb = pl * wb := by omega
            exact Nat.eq_of_mul_eq_mul_right (by omega) h2
          rw [if_pos hbj, if_pos hbpl]
        · refine (if_neg hbj).trans (if_neg (fun hbpl => hbj ?_)).symm
          subst hbpl
          omega
      rw [orJoin_congr p _ _ hcongr, orJoin_single p pl _ hpl]
    · rw [if_neg hit]
      refine orJoin_zero p _ (fun b hb => if_neg (fun hbj => hit ?_))
      have hcb : u / 8 % wb < wb := Nat.mod_lt _ (by omega)
      have hb0 : pl * wb + c < p * wb := by
        have h6 : (pl + 1) * wb ≤ p * wb := Nat.mul_le_mul_right wb (by omega)
        rw [Nat.succ_mul] at h6
        omega
      have hbw : b * wb ≤ (p - 1) * wb := Nat.mul_le_mul_right wb (by omega)
      have hpw : (p - 1) * wb + wb = p * wb := by
        rw [← Nat.succ_mul]
        congr 1
        omega
      have hG : u / (8 * wb) = g := by
        refine window_div_eq (p * wb) (u / (8 * wb)) g (pl * wb + c) hb0 ?_ ?_
        · omega
        · omega
      refine ⟨hG, ?_⟩
      rw [hG] at hbj
      have h7 : u / 8 % wb + b * wb = pl * wb + c := by omega
      have h8 : (u / 8 % wb + b * wb) % wb = u / 8 % wb % wb :=
        Nat.add_mul_mod_self_right _ b wb
      have h9 : (pl * wb + c) % wb = c % wb := by
        rw [Nat.add_comm]
        exact Nat.add_mul_mod_self_right c pl wb
      rw [Nat.mod_eq_of_lt hcb] at h8
      rw [Nat.mod_eq_of_lt hc] at h9
      rw [h7] at h8
      omega
  rw [orJoin_congr (8 * (k * wb)) _ _ hper]
  have hac : 8 * wb * g + 8 * c + 8 ≤ 8 * (k * wb) := by
    have h1 : 8 * wb * (g + 1) ≤ 8 * wb * k := Nat.mul_le_mul_left _ (by omega)
    rw [Nat.mul_succ] at h1
    have h2 : 8 * wb * k = 8 * (k * wb) := by ring
    omega
  rw [orJoin_window (8 * (k * wb)) (8 * wb * g + 8 * c) 8 _ hac (fun u hu hor => by
    refine if_neg (fun hit => ?_)
    have hdm := Nat.div_add_mod u (8 * wb)
    rw [hit.1] at hdm
    have hm8 : u % (8 * wb) < 8 * wb := Nat.mod_lt _ (by omega)
    have hu_eq : u = 8 * (wb * g) + u % (8 * wb) := by
      rw [show 8 * (wb * g) = 8 * wb * g from by ring]
      omega
    have hu8 : u / 8 = wb * g + u % (8 * wb) / 8 := by
      nth_rewrite 1 [hu_eq]
      rw [Nat.mul_add_div (by norm_num)]
    have hmwb : u % (8 * wb) / 8 < wb := by
      rw [Nat.div_lt_iff_lt_mul (by norm_num)]
      omega
    have hcu : u / 8 % wb = u % (8 * wb) / 8 := by
      rw [hu8, Nat.mul_add_mod, Nat.mod_eq_of_lt hmwb]
    rw [hcu] at hit
    have hdm2 := Nat.div_add_mod (u % (8 * wb)) 8
    rw [hit.2] at hdm2
    omega)]
  refine orJoin_congr 8 _ _ (fun t ht => ?_)
  have hfit1 : (8 * wb * g + 8 * c + t) / (8 * wb) = g := by
    rw [show 8 * wb * g + 8 * c + t = g * (8 * wb) + (8 * c + t) from by ring]
    exact mul_add_div_eq (8 * wb) g (8 * c + t) (by omega) (by omega)
  have hfit2 : (8 * wb * g + 8 * c + t) / 8 % wb = c := by
    rw [show 8 * wb * g + 8 * c + t = 8 * (wb * g + c) + t from by ring,
      Nat.mul_add_div (by norm_num), Nat.div_eq_of_lt (by omega), Nat.add_zero,
      Nat.mul_add_mod, Nat.mod_eq_of_lt hc]
  rw [if_pos ⟨hfit1, hfit2⟩]
  have hmod8 : (8 * wb * g + 8 * c + t) % 8 = t % 8 := by
    rw [show 8 * wb * g + 8 * c + t = 8 * (wb * g + c) + t from by ring, Nat.mul_add_mod]
  rw [hmod8, Nat.add_assoc]

/-! ### Claim theorems for the round-trip law -/

/-- Counterexample for C1 as stated: `planes = 1 ∈ {1,2,4,5,8}`,
`planeWidth = 4 > 0`, and `[0xFF]` has length 1, a multiple of the natural
block size `⌈4/8⌉ * 1 = 1`, yet the round trip yields `[0xF0]`: `fromPlanar`
reads only the four pixels of each plane row and the bits of the unused half
byte are lost. -/
theorem roundtrip_fails_for_planeWidth_four :
    fromPlanar [0xFF] 1 4 true = Except.ok [1, 1, 1, 1, 0, 0, 0, 0] ∧
    toPlanar [1, 1, 1, 1, 0, 0, 0, 0] 1 4 true = [0xF0] ∧
    (0xF0 : Nat) ≠ 0xFF := by
  refine ⟨rfl, by decide, by decide⟩

set_option maxHeartbeats 1000000 in
/-- C1 (amended: the plane width must additionally be a multiple of 8, as it
is in every in-repo use - 8 for byte-planar data and the image width for
row-planar data of byte-aligned width).  For plane counts in {1,2,4,5,8}, a
plane width `8*w > 0`, either bit order, and any byte sequence whose length
is a multiple of the natural block size `planeWidth/8 * planes`, `toPlanar`
is the exact inverse of `fromPlanar`. -/
theorem toPlanar_fromPlanar_roundtrip (content : List Nat) (planes : Nat)
    (planeWidth : Int) (msb : Bool)
    (hplanes : planes = 1 ∨ planes = 2 ∨ planes = 4 ∨ planes = 5 ∨ planes = 8)
    (hpw : ∃ w : Nat, 1 ≤ w ∧ planeWidth = ((8 * w : Nat) : Int))
    (hbytes : ∀ x ∈ content, x < 256)
    (hlen : ∃ k : Nat, content.length = k * (planeWidth.toNat / 8 * planes)) :
    (fromPlanar content planes planeWidth msb).map
      (fun lin => toPlanar lin planes planeWidth msb) = Except.ok content := by
  obtain ⟨w, hw, rfl⟩ := hpw
  obtain ⟨k, hk⟩ := hlen
  have hp : 1 ≤ planes := by rcases hplanes with h | h | h | h | h <;> omega
  have hp8 : planes ≤ 8 := by rcases hplanes with h | h | h | h | h <;> omega
  rw [Int.toNat_ofNat, show 8 * w / 8 = w from by omega] at hk
  obtain ⟨hok, hgetD⟩ := fromPlanar_closed_form content planes w k msb hp hp8 hw hk
  rw [hok]
  rw [show (Except.ok (applyWrites (List.replicate (8 * (k * w)) 0)
        (fromPlanarWrites content planes w (8 * w) msb (k * planes) 0 0))
          : Except JsError (List Nat)).map
        (fun lin => toPlanar lin planes ((8 * w : Nat) : Int) msb)
      = Except.ok (toPlanar (applyWrites (List.replicate (8 * (k * w)) 0)
          (fromPlanarWrites content planes w (8 * w) msb (k * planes) 0 0))
            planes ((8 * w : Nat) : Int) msb) from rfl]
  set lin := applyWrites (List.replicate (8 * (k * w)) 0)
    (fromPlanarWrites content planes w (8 * w) msb (k * planes) 0 0) with hlin
  have hlinlen : lin.length = 8 * (k * w) := by
    rw [hlin, length_applyWrites, List.length_replicate]
  have hlinbytes : ∀ x ∈ lin, x < 256 := by
    rw [hlin]
    exact mem_bound_applyWrites _ _
      (fun x hx => by rw [List.eq_of_mem_replicate hx]; norm_num)
  rw [toPlanar_closed_form lin planes w k msb hw hlinlen]
  refine congrArg Except.ok ?_
  refine List.ext_getElem ?_ (fun j hj1 hj2 => ?_)
  · rw [length_applyWrites, List.length_replicate, hk]
  · have hjL : j < k * (w * planes) := by
      rw [← hk]
      exact hj2
    have hpwpos : 0 < planes * w := Nat.mul_pos (by omega) (by omega)
    have hdm1 := Nat.div_add_mod j (planes * w)
    have hr : j % (planes * w) < planes * w := Nat.mod_lt _ hpwpos
    have hdm2 := Nat.div_add_mod (j % (planes * w)) w
    have hcw : j % (planes * w) % w < w := Nat.mod_lt _ (by omega)
    have hg : j / (planes * w) < k := by
      rw [Nat.div_lt_iff_lt_mul hpwpos]
      calc j < k * (w * planes) := hjL
        _ = k * (planes * w) := by ring
    have hpl : j % (planes * w) / w < planes := by
      rw [Nat.div_lt_iff_lt_mul (by omega)]
      exact hr
    have hjdecomp : j = planes * w * (j / (planes * w))
        + (j % (planes * w) / w) * w + j % (planes * w) % w := by
      have h1 : (j % (planes * w) / w) * w = w * (j % (planes * w) / w) := by ring
      omega
    have hidx : (j / (planes * w) * planes + j % (planes * w) / w) * w
        + j % (planes * w) % w = j := by
      have h1 : (j / (planes * w) * planes + j % (planes * w) / w) * w
          = planes * w * (j / (planes * w)) + w * (j % (planes * w) / w) := by ring
      omega
    have hx256 : content.getD j 0 < 256 := by
      rw [List.getD_eq_getElem content 0 hj2]
      exact hbytes _ (List.getElem_mem hj2)
    rw [← List.getD_eq_getElem _ 0 hj1, ← List.getD_eq_getElem content 0 hj2]
    rw [getD_applyWrites _ _ _
      (fun x hx => by rw [List.eq_of_mem_replicate hx]; norm_num)
      (by rw [List.length_replicate]; exact hjL)]
    rw [getD_replicate_zero, Nat.zero_or]
    conv_lhs => rw [hjdecomp]
    rw [orWrites_toPlanar_at lin planes w msb k (j / (planes * w))
      (j % (planes * w) / w) (j % (planes * w) % w) hp hw hg hpl hcw]
    have hstep : ∀ t, t < 8 →
        ((lin.getD (8 * w * (j / (planes * w)) + (8 * (j % (planes * w) % w) + t)) 0 >>>
            (j % (planes * w) / w % 32)) &&& 1)
          <<< (if msb then 7 - t % 8 else t % 8)
        = ((content.getD j 0 >>> (if msb then 7 - t % 8 else t % 8)) &&& 1)
          <<< (if msb then 7 - t % 8 else t % 8) := by
      intro t ht
      rw [Nat.mod_eq_of_lt (show j % (planes * w) / w < 32 by omega)]
      rw [hgetD (j / (planes * w)) (8 * (j % (planes * w) % w) + t) hg (by omega)]
      rw [show (8 * (j % (planes * w) % w) + t) / 8 = j % (planes * w) % w from by omega,
        show (8 * (j % (planes * w) % w) + t) % 8 = t % 8 from by omega]
      rw [extract_bit_orJoin planes _ (fun pl' => Nat.and_le_right)
        (j % (planes * w) / w) hpl hp8]
      rw [hidx]
    rw [orJoin_congr 8 _ _ hstep]
    exact byte_reassemble msb (content.getD j 0) hx256

example : (fromPlanar [0xAA, 0x55] 2 8 true).map (fun lin => toPlanar lin 2 8 true)
    = Except.ok [0xAA, 0x55] := rfl

example : (fromPlanar [1, 2, 3, 4, 5] 5 8 false).map (fun lin => toPlanar lin 5 8 false)
    = Except.ok [1, 2, 3, 4, 5] := rfl

example : (fromPlanar [0x12, 0x34, 0x56, 0x78] 2 16 true).map
    (fun lin => toPlanar lin 2 16 true) = Except.ok [0x12, 0x34, 0x56, 0x78] := rfl

/-- Witness for C1 at `content = [0xAA, 0x55]`, `planes = 2`, `planeWidth = 8`,
MSB-first bit order. -/
theorem toPlanar_fromPlanar_roundtrip_witness :
    ((2 : Nat) = 1 ∨ (2 : Nat) = 2 ∨ (2 : Nat) = 4 ∨ (2 : Nat) = 5 ∨ (2 : Nat) = 8) ∧
    (∃ w : Nat, 1 ≤ w ∧ (8 : Int) = ((8 * w : Nat) : Int)) ∧
    (∀ x ∈ [0xAA, 0x55], x < 256) ∧
    (∃ k : Nat, ([0xAA, 0x55] : List Nat).length = k * ((8 : Int).toNat / 8 * 2)) ∧
    (fromPlanar [0xAA, 0x55] 2 8 true).map (fun lin => toPlanar lin 2 8 true)
      = Except.ok [0xAA, 0x55] :=
  ⟨by decide, ⟨1, by decide, by decide⟩, by decide, ⟨1, by decide⟩,
    toPlanar_fromPlanar_roundtrip [0xAA, 0x55] 2 8 true (by decide)
      ⟨1, by decide, by decide⟩ (by decide) ⟨1, by decide⟩⟩
